import Mathlib


/-!
Verification of the cross-tabulation engine (`src/core/crosstab_engine.py`).

Counts and percentages are embedded over `ℚ` (the Python code works on floats,
but every quantity the claims mention is a ratio of integer counts, so exact
rational arithmetic is a faithful model and replaces "± 1e-6" tolerances with
exact equalities).  External numeric kernels (scipy's chi-square p-value,
`np.sqrt`, `scipy.stats.ttest_ind`, the Fisher kernel) are abstracted as
function parameters: every theorem below holds for an arbitrary kernel, so
nothing depends on their numeric behaviour.  Where the Python code can produce
a non-finite float by dividing by zero, the cell is modelled as `Option ℚ`
(`none` = inf/NaN); where a branch guards the divisor away from zero, plain
`ℚ` division is used.
-/

/-- Sum of the entries in column `j` of a row-major matrix
(`table.sum(axis=0)` restricted to one column; absent entries count 0). -/
def colTotal (M : List (List ℚ)) (j : ℕ) : ℚ :=
  (M.map (fun r => r.getD j 0)).sum

/-- Sum of all entries of a row-major matrix (`table.sum().sum()`). -/
def grandTotal (M : List (List ℚ)) : ℚ :=
  (M.map List.sum).sum

/-- The margin row appended by `pd.crosstab(..., margins=True)`: the per-column
sums of the body. -/
def allRow (M : List (List ℚ)) (nc : ℕ) : List ℚ :=
  (List.range nc).map (fun j => colTotal M j)

/-- `pd.crosstab(..., margins=True)` on a body `M` with `nc` columns: each body
row gains its row sum as a trailing "All" cell, and a final "All" row holds the
column sums and the grand total. -/
def withMargins (M : List (List ℚ)) (nc : ℕ) : List (List ℚ) :=
  (M.map (fun r => r ++ [r.sum])) ++ [allRow M nc ++ [grandTotal M]]

/-- One row of the row-percentage view built by `CrosstabEngine.create_crosstab`
(lines 288-303): given the non-margin cells of a row, if their total is
positive each cell becomes `cell / total * 100` and the trailing "All" cell is
set to `100.0`; otherwise the whole row (margin cell included) is `0.0`. -/
def engineRowPercRow (row : List ℚ) : List ℚ :=
  if 0 < row.sum then row.map (fun x => x / row.sum * 100) ++ [100]
  else List.replicate (row.length + 1) 0

/-- The full row-percentage view of `CrosstabEngine.create_crosstab`: the rule
above applied to every body row, and then to the margin ("All") row, whose
non-margin cells are the column totals. -/
def engineRowPercentages (M : List (List ℚ)) (nc : ℕ) : List (List ℚ) :=
  (M.map engineRowPercRow) ++ [engineRowPercRow (allRow M nc)]

/-- `CrosstabGenerator._calculate_row_percentages` (line 88):
`table.div(table.sum(axis=1), axis=0) * 100`, applied to the margin-augmented
table, so each cell is divided by the sum of its whole row including the "All"
margin cell.  (pandas yields a non-finite float when a row sum is zero; rows of
a margin-augmented `pd.crosstab` table always have a positive sum, and every
statement below about this view assumes a positive row sum.) -/
def generatorRowPercentages (T : List (List ℚ)) : List (List ℚ) :=
  T.map (fun row => row.map (fun x => x / row.sum * 100))

/-- `CrosstabStatistics` (src/core/crosstab_result.py): the chi-square summary
attached to a crosstab.  Residual cells are `Option ℚ`: `some q` is the finite
float `q`, `none` a non-finite float (inf or NaN). -/
structure CrosstabStatistics where
  chi_square : ℚ
  p_value : ℚ
  degrees_of_freedom : ℚ
  cramers_v : ℚ
  expected_values : List (List ℚ)
  residuals : List (List (Option ℚ))
deriving Repr, DecidableEq

/-- `CrosstabEngine._calculate_residuals` (lines 432-448), also inlined at
line 363 of `create_crosstab`: `(observed - expected) / np.sqrt(expected)`
elementwise, with no zero-guard in the source.  `np.sqrt` of a negative float
is NaN and of zero is zero, so the quotient is a finite float exactly when the
expected cell is positive: a non-finite result is modelled as `none`, and
`sqrtK` stands for the floating square root on the positive cells. -/
def calculate_residuals (sqrtK : ℚ → ℚ) (O E : List (List ℚ)) :
    List (List (Option ℚ)) :=
  List.zipWith
    (fun ro re => List.zipWith
      (fun o e => if e ≤ 0 then none else some ((o - e) / sqrtK e)) ro re) O E

/-- `CrosstabEngine._calculate_expected_values` (lines 415-430), identical to
the expected matrix `scipy.stats.chi2_contingency` computes on lines 352 and
122: `np.outer(row_totals, col_totals) / total` over the non-margin body. -/
def calculate_expected_values (M : List (List ℚ)) (nc : ℕ) : List (List ℚ) :=
  M.map (fun r => (List.range nc).map (fun j => r.sum * colTotal M j / grandTotal M))

/-- The statistics branch of `CrosstabEngine.create_crosstab` (lines 337-372)
on the non-margin body `M` with `nc` columns.  `chi2K` abstracts
`scipy.stats.chi2_contingency` (statistic, p-value, degrees of freedom,
expected matrix) and `sqrtK` abstracts `np.sqrt`; the degenerate branch (one
row or one column) consults neither.  The degenerate residual matrix
`[[0.0] * shape[1]] * shape[0]` is `replicate` of `replicate`. -/
def computeStatistics (chi2K : List (List ℚ) → ℚ × ℚ × ℚ × List (List ℚ))
    (sqrtK : ℚ → ℚ) (M : List (List ℚ)) (nc : ℕ) : CrosstabStatistics :=
  if M.length = 1 ∨ nc = 1 then
    { chi_square := 0, p_value := 1, degrees_of_freedom := 0, cramers_v := 0,
      expected_values := M,
      residuals := List.replicate M.length (List.replicate nc (some 0)) }
  else
    match chi2K M with
    | (chi2, p, dof, expected) =>
      { chi_square := chi2, p_value := p, degrees_of_freedom := dof,
        cramers_v :=
          if 0 < grandTotal M ∧ 0 < min M.length nc - 1 then
            sqrtK (chi2 / (grandTotal M * ((min M.length nc - 1 : ℕ) : ℚ)))
          else 0,
        expected_values := expected,
        residuals := calculate_residuals sqrtK M expected }

/-- A dataset as the engine sees it: named columns of optional values
(`none` is a missing value / NaN). -/
structure DataSet (V : Type) where
  cols : List (String × List (Option V))

/-- `self.data.columns`. -/
def DataSet.columns {V : Type} (d : DataSet V) : List String :=
  d.cols.map Prod.fst

/-- `self.data[name]`: the first column carrying the given name
(`[]` when the name is absent; the callers below guard on membership). -/
def DataSet.col {V : Type} (d : DataSet V) (name : String) : List (Option V) :=
  match d.cols.find? (fun c => c.1 == name) with
  | some c => c.2
  | none => []

/-- `series.isna().all()`. -/
def allMissing {V : Type} (l : List (Option V)) : Bool :=
  l.all Option.isNone

/-- The validation prefix of `CrosstabEngine.create_crosstab` (lines 261-268),
reached after the engine-level emptiness pre-check: an absent row variable,
then an absent column variable, then the combined all-null check with its
fixed message. -/
def createCrosstabValidate {V : Type} (d : DataSet V) (rowVar colVar : String) :
    Except String Unit :=
  if rowVar ∉ d.columns then
    .error ("Row variable \x27" ++ rowVar ++ "\x27 not found in data")
  else if colVar ∉ d.columns then
    .error ("Column variable \x27" ++ colVar ++ "\x27 not found in data")
  else if allMissing (d.col rowVar) || allMissing (d.col colVar) then
    .error "Variable contains all null values"
  else .ok ()

/-- `StatisticType` (lines 15-20 of crosstab_engine.py). -/
inductive StatisticType where
  | CHI_SQUARE
  | FISHER_EXACT
  | T_TEST
  | ANOVA
deriving Repr, DecidableEq

/-- `StatisticalResult` (lines 22-29).  Degrees of freedom are modelled as an
optional rational (the ANOVA pair is outside the claims under study). -/
structure StatisticalResult where
  test_type : StatisticType
  statistic : ℚ
  p_value : ℚ
  degrees_of_freedom : Option ℚ
  effect_size : Option ℚ
deriving Repr, DecidableEq

/-- `scipy.stats.fisher_exact` as called on line 495: scipy rejects any table
that is not exactly 2×2 with a ValueError; on a 2×2 table it returns the
sample odds ratio and the exact p-value, abstracted here as `kernel`. -/
def fisher_exact (kernel : List (List ℚ) → ℚ × ℚ) (T : List (List ℚ)) :
    Except String (ℚ × ℚ) :=
  if T.length = 2 ∧ ∀ r ∈ T, r.length = 2 then .ok (kernel T)
  else .error "The input table must be of shape (2, 2)."

/-- The Fisher branch of `CrosstabEngine.perform_statistical_test`
(lines 493-500): apply scipy to the observed table and package the odds ratio
as the statistic and the exact p-value, with no degrees of freedom and no
effect size. -/
def performFisher (kernel : List (List ℚ) → ℚ × ℚ) (T : List (List ℚ)) :
    Except String StatisticalResult :=
  (fisher_exact kernel T).map (fun op =>
    { test_type := .FISHER_EXACT, statistic := op.1, p_value := op.2,
      degrees_of_freedom := none, effect_size := none })

/-- `pandas.Series.unique` on the row-variable column (line 503): the distinct
values in first-occurrence order, accumulated left to right. -/
def uniqueAux {V : Type} [DecidableEq V] : List V → List V → List V
  | _, [] => []
  | seen, a :: l => if a ∈ seen then uniqueAux seen l else a :: uniqueAux (a :: seen) l

/-- `self.data[var1].unique()`. -/
def uniqueList {V : Type} [DecidableEq V] (l : List V) : List V :=
  uniqueAux [] l

/-- `series.mean()`: sum over length. -/
def mean (l : List ℚ) : ℚ := l.sum / (l.length : ℚ)

/-- `series.var()`: the pandas sample variance, denominator `n - 1`. -/
def sampleVar (l : List ℚ) : ℚ :=
  (l.map (fun x => (x - mean l) ^ 2)).sum / ((l.length : ℚ) - 1)

/-- `self.data[self.data[var1] == g][var2]` (lines 507-508): the column-variable
values on the rows whose row-variable value equals `g`. -/
def groupVals {V : Type} [DecidableEq V] (v1 : List V) (v2 : List ℚ) (g : V) :
    List ℚ :=
  ((v1.zip v2).filter (fun p => p.1 == g)).map Prod.snd

/-- The t-test branch of `CrosstabEngine.perform_statistical_test`
(lines 502-520): reject unless the row variable has exactly two distinct
values; otherwise run the two-sample kernel (`scipy.stats.ttest_ind`,
abstracted as `tKernel`) on the two groups and attach the effect size
`(mean₁ - mean₂) / sqrt((var₁ + var₂) / 2)`, with `sqrtK` for `np.sqrt`. -/
def ttestBranch {V : Type} [DecidableEq V] [Inhabited V]
    (tKernel : List ℚ → List ℚ → ℚ × ℚ) (sqrtK : ℚ → ℚ)
    (v1 : List V) (v2 : List ℚ) : Except String StatisticalResult :=
  if (uniqueList v1).length ≠ 2 then .error "T-test requires exactly 2 groups"
  else
    .ok { test_type := .T_TEST,
          statistic := (tKernel (groupVals v1 v2 ((uniqueList v1).getD 0 default))
            (groupVals v1 v2 ((uniqueList v1).getD 1 default))).1,
          p_value := (tKernel (groupVals v1 v2 ((uniqueList v1).getD 0 default))
            (groupVals v1 v2 ((uniqueList v1).getD 1 default))).2,
          degrees_of_freedom := none,
          effect_size := some
            ((mean (groupVals v1 v2 ((uniqueList v1).getD 0 default)) -
              mean (groupVals v1 v2 ((uniqueList v1).getD 1 default))) /
             sqrtK ((sampleVar (groupVals v1 v2 ((uniqueList v1).getD 0 default)) +
               sampleVar (groupVals v1 v2 ((uniqueList v1).getD 1 default))) / 2)) }

/-- The row-major cross product of the two variable lists, as iterated by the
nested `for row_var in row_vars: for col_var in col_vars:` loops. -/
def rowMajorPairs (rowVars colVars : List String) : List (String × String) :=
  rowVars.flatMap (fun rv => colVars.map (fun cv => (rv, cv)))

/-- The shared shape of the two banner loops: walk the pair list in order,
calling the per-pair crosstab `ct`; a raised error propagates immediately
(discarding the accumulated results), otherwise the result is appended to the
insertion-ordered dictionary (modelled as an association list) under
`key rv cv`. -/
def bannerLoop {E R : Type} (key : String → String → String)
    (ct : String → String → Except E R) :
    List (String × String) → List (String × R) → Except E (List (String × R))
  | [], acc => .ok acc
  | p :: rest, acc =>
    match ct p.1 p.2 with
    | .error e => .error e
    | .ok r => bannerLoop key ct rest (acc ++ [(key p.1 p.2, r)])

/-- `CrosstabEngine.create_banner_table` (lines 382-413): keys
`f"{row_var} x {col_var}"`, per-pair calls to `create_crosstab` (abstracted as
`ct`, which may raise). -/
def create_banner_table {E R : Type} (ct : String → String → Except E R)
    (rowVars colVars : List String) : Except E (List (String × R)) :=
  bannerLoop (fun rv cv => rv ++ " x " ++ cv) ct (rowMajorPairs rowVars colVars) []

/-- `BannerTableGenerator.generate_banner` (lines 151-181): same loop shape but
keys `f"{row_var}_by_{col_var}"`, per-pair calls to `CrosstabGenerator.generate`
(abstracted as `ct`). -/
def generate_banner {E R : Type} (ct : String → String → Except E R)
    (rowVars colVars : List String) : Except E (List (String × R)) :=
  bannerLoop (fun rv cv => rv ++ "_by_" ++ cv) ct (rowMajorPairs rowVars colVars) []

/-- The records `pd.crosstab` actually tabulates: the (row value, column value)
pairs in which both sides are present (pandas drops a record whenever either
side is missing). -/
def validPairs {V W : Type} (pairs : List (Option V × Option W)) : List (V × W) :=
  pairs.filterMap (fun p =>
    match p with
    | (some a, some b) => some (a, b)
    | _ => none)

/-- The number of records cross-classified into cell (a, b). -/
def countPair {V W : Type} [DecidableEq V] [DecidableEq W]
    (ps : List (V × W)) (a : V) (b : W) : ℕ :=
  ps.countP (fun p => p.1 == a && p.2 == b)

/-- `pd.crosstab(row, col, margins=True, margins_name="All")` as built by
`create_crosstab` (lines 271-276), by its tabulation semantics: the body
counts each category pair; the "All" margin row and column report the
per-category subtotals (the count of records carrying that column/row
category) and `grand` the count of all tabulated records.  Claim C9 is
exactly the statement that these subtotals coincide with the in-table sums.
(The category lists appear here in first-occurrence order where pandas sorts
them ascending; sorting only permutes rows/columns and is irrelevant to the
margin invariant.) -/
structure CrossTable (V W : Type) where
  rowCats : List V
  colCats : List W
  body : List (List ℕ)
  marginRow : List ℕ
  marginCol : List ℕ
  grand : ℕ

def crosstabMargins {V W : Type} [DecidableEq V] [DecidableEq W]
    (pairs : List (Option V × Option W)) : CrossTable V W :=
  { rowCats := uniqueList ((validPairs pairs).map Prod.fst)
    colCats := uniqueList ((validPairs pairs).map Prod.snd)
    body := (uniqueList ((validPairs pairs).map Prod.fst)).map (fun a =>
      (uniqueList ((validPairs pairs).map Prod.snd)).map (fun b =>
        countPair (validPairs pairs) a b))
    marginRow := (uniqueList ((validPairs pairs).map Prod.snd)).map (fun b =>
      (validPairs pairs).countP (fun p => p.2 == b))
    marginCol := (uniqueList ((validPairs pairs).map Prod.fst)).map (fun a =>
      (validPairs pairs).countP (fun p => p.1 == a))
    grand := (validPairs pairs).length }

lemma sum_map_div_mul (l : List ℚ) (t c : ℚ) :
    (l.map (fun x => x / t * c)).sum = l.sum / t * c := by
  induction l with
  | nil => simp
  | cons a l ih =>
    simp only [List.map_cons, List.sum_cons, ih]
    ring

lemma sum_map_add {α M : Type} [AddCommMonoid M] (l : List α) (f g : α → M) :
    (l.map (fun x => f x + g x)).sum = (l.map f).sum + (l.map g).sum := by
  induction l with
  | nil => simp
  | cons a l ih =>
    simp only [List.map_cons, List.sum_cons, ih]
    exact add_add_add_comm _ _ _ _

lemma getD_map_append {α β : Type} {M : List α} (f : α → β) (tail : List β) (d : β)
    (dflt : α) {i : ℕ} (hi : i < M.length) :
    ((M.map f) ++ tail).getD i d = f (M.getD i dflt) := by
  have h1 : i < (M.map f).length := by simpa using hi
  rw [List.getD_eq_getElem _ _ (by simp [List.length_append]; omega),
    List.getElem_append_left h1, List.getElem_map, List.getD_eq_getElem _ _ hi]

lemma dropLast_append_singleton {α : Type} (l : List α) (a : α) :
    (l ++ [a]).dropLast = l := by
  exact List.dropLast_concat

lemma engineRowPercRow_sum_pos {row : List ℚ} (h : 0 < row.sum) :
    (engineRowPercRow row).dropLast.sum = 100 := by
  rw [engineRowPercRow, if_pos h, dropLast_append_singleton, sum_map_div_mul,
    div_self (ne_of_gt h), one_mul]

lemma engineRowPercRow_sum_zero {row : List ℚ} (h : row.sum = 0) :
    ∀ x ∈ engineRowPercRow row, x = 0 := by
  rw [engineRowPercRow, h, if_neg (lt_irrefl 0)]
  exact fun x hx => List.eq_of_mem_replicate hx

lemma generator_row_fifty {row : List ℚ} (h : 0 < row.sum) :
    ((row ++ [row.sum]).map
      (fun x => x / (row ++ [row.sum]).sum * 100)).dropLast.sum = 50 := by
  have hs : (row ++ [row.sum]).sum = row.sum + row.sum := by simp
  rw [List.map_append, hs, List.map_singleton, dropLast_append_singleton,
    sum_map_div_mul, div_mul_eq_mul_div, div_eq_iff (by positivity : row.sum + row.sum ≠ 0)]
  ring

/-- C1 (amended): with percentages enabled, every non-margin row of the
row-percentage view built by `CrosstabEngine.create_crosstab` sums exactly to
100 when its margin total is positive, and is all-zero (margin cell included)
when its margin total is zero; the duplicate generic generator path
(`CrosstabGenerator._calculate_row_percentages`) divides by the
margin-inclusive row sum, so its non-margin rows sum to 50, not 100, whenever
the row total is positive. -/
theorem C1_row_percentage_sums (M : List (List ℚ)) (nc : ℕ) (i : ℕ)
    (hi : i < M.length) :
    (0 < (M.getD i []).sum →
        ((engineRowPercentages M nc).getD i []).dropLast.sum = 100 ∧
        ((generatorRowPercentages (withMargins M nc)).getD i []).dropLast.sum = 50) ∧
    ((M.getD i []).sum = 0 →
        ∀ x ∈ (engineRowPercentages M nc).getD i [], x = 0) := by
  have he : (engineRowPercentages M nc).getD i [] = engineRowPercRow (M.getD i []) :=
    getD_map_append _ _ _ [] hi
  have hg : (generatorRowPercentages (withMargins M nc)).getD i []
      = (M.getD i [] ++ [(M.getD i []).sum]).map
          (fun x => x / (M.getD i [] ++ [(M.getD i []).sum]).sum * 100) := by
    unfold generatorRowPercentages withMargins
    rw [List.map_append, List.map_map]
    exact getD_map_append _ _ _ [] hi
  refine ⟨fun hpos => ⟨?_, ?_⟩, fun hzero => ?_⟩
  · rw [he]; exact engineRowPercRow_sum_pos hpos
  · rw [hg]; exact generator_row_fifty hpos
  · rw [he]; exact engineRowPercRow_sum_zero hzero

/-- C1 counterexample: on the spec's own seed table (body rows
`[1,0,1]` and `[1,1,0]`), the first non-margin row of the generator path's
row-percentage view has a positive margin total, yet its non-margin cells sum
to 50 rather than 100 and are not all zero — so the claim fails for the
duplicate generic generator path. -/
theorem C1_counterexample :
    (0:ℚ) < ([1, 0, 1] : List ℚ).sum ∧
    ((generatorRowPercentages (withMargins [[1,0,1],[1,1,0]] 3)).getD 0 []).dropLast.sum ≠ 100 ∧
    ¬ (∀ x ∈ (generatorRowPercentages (withMargins [[1,0,1],[1,1,0]] 3)).getD 0 [],
        x = (0:ℚ)) := by
  refine ⟨by norm_num, ?_, ?_⟩
  · norm_num [generatorRowPercentages, withMargins, allRow, colTotal, grandTotal,
      List.range_succ]
  · intro h
    have h25 := h (1 / 4 * 100)
    norm_num [generatorRowPercentages, withMargins, allRow, colTotal, grandTotal,
      List.range_succ] at h25

/-- C1 witness: the amended theorem evaluated on the spec's seed table. -/
theorem C1_witness :
    ((engineRowPercentages [[1,0,1],[1,1,0]] 3).getD 0 []).dropLast.sum = 100 ∧
    ((generatorRowPercentages (withMargins [[1,0,1],[1,1,0]] 3)).getD 0 []).dropLast.sum = 50 :=
  (C1_row_percentage_sums [[1,0,1],[1,1,0]] 3 0 (by norm_num)).1 (by norm_num)

/-- C2: for a contingency table whose non-margin sub-table has exactly one row
or exactly one column, the chi-square path of `create_crosstab` returns
statistic 0.0, p-value 1.0, zero degrees of freedom, Cramer's V 0.0, an
expected matrix equal to the observed body, and an all-zero residual matrix —
for every choice of scipy kernel, which this branch never consults. -/
theorem C2_degenerate_chi_square
    (chi2K : List (List ℚ) → ℚ × ℚ × ℚ × List (List ℚ)) (sqrtK : ℚ → ℚ)
    (M : List (List ℚ)) (nc : ℕ) (h : M.length = 1 ∨ nc = 1) :
    (computeStatistics chi2K sqrtK M nc).chi_square = 0 ∧
    (computeStatistics chi2K sqrtK M nc).p_value = 1 ∧
    (computeStatistics chi2K sqrtK M nc).degrees_of_freedom = 0 ∧
    (computeStatistics chi2K sqrtK M nc).cramers_v = 0 ∧
    (computeStatistics chi2K sqrtK M nc).expected_values = M ∧
    ∀ row ∈ (computeStatistics chi2K sqrtK M nc).residuals, ∀ c ∈ row, c = some 0 := by
  unfold computeStatistics
  rw [if_pos h]
  exact ⟨rfl, rfl, rfl, rfl, rfl, fun row hrow c hc => by
    rw [List.eq_of_mem_replicate hrow] at hc
    exact List.eq_of_mem_replicate hc⟩

/-- C2 witness: a 1×2 body, with a deliberately garbage scipy kernel, still
yields the degenerate constants. -/
theorem C2_witness :
    (computeStatistics (fun _ => (5, 5, 5, [[5]])) (fun q => q) [[1, 2]] 2).chi_square = 0 ∧
    (computeStatistics (fun _ => (5, 5, 5, [[5]])) (fun q => q) [[1, 2]] 2).p_value = 1 ∧
    (computeStatistics (fun _ => (5, 5, 5, [[5]])) (fun q => q) [[1, 2]] 2).degrees_of_freedom = 0 ∧
    (computeStatistics (fun _ => (5, 5, 5, [[5]])) (fun q => q) [[1, 2]] 2).cramers_v = 0 ∧
    (computeStatistics (fun _ => (5, 5, 5, [[5]])) (fun q => q) [[1, 2]] 2).expected_values = [[1, 2]] := by
  have h := C2_degenerate_chi_square (fun _ => (5, 5, 5, [[5]])) (fun q => q)
    [[1, 2]] 2 (Or.inl rfl)
  exact ⟨h.1, h.2.1, h.2.2.1, h.2.2.2.1, h.2.2.2.2.1⟩

lemma mem_zipWith {α β γ : Type} {f : α → β → γ} {c : γ} :
    ∀ {l₁ : List α} {l₂ : List β}, c ∈ List.zipWith f l₁ l₂ →
      ∃ a b, a ∈ l₁ ∧ b ∈ l₂ ∧ c = f a b := by
  intro l₁
  induction l₁ with
  | nil => intro l₂ h; simp at h
  | cons a l₁ ih =>
    intro l₂ h
    cases l₂ with
    | nil => simp at h
    | cons b l₂ =>
      rw [List.zipWith_cons_cons, List.mem_cons] at h
      rcases h with h | h
      · exact ⟨a, b, List.mem_cons_self _ _, List.mem_cons_self _ _, h⟩
      · obtain ⟨a', b', ha, hb, hc⟩ := ih h
        exact ⟨a', b', List.mem_cons_of_mem _ ha, List.mem_cons_of_mem _ hb, hc⟩

/-- C3 (amended): the standardized-residual computation applies no zero-guard,
so a zero expected cell yields a non-finite float rather than 0.0; but every
residual cell is finite whenever the expected matrix is strictly positive, and
the expected matrix `create_crosstab` feeds it — the outer-product matrix —
has strictly positive cells whenever every row total and column total of the
body is positive (which holds for any body built by `pd.crosstab`), so the
division-by-zero case is unreachable inside `create_crosstab`. -/
theorem C3_residual_totality (sqrtK : ℚ → ℚ) (O E : List (List ℚ))
    (hE : ∀ r ∈ E, ∀ e ∈ r, 0 < e) :
    (∀ row ∈ calculate_residuals sqrtK O E, ∀ c ∈ row, c ≠ none) ∧
    (∀ M : List (List ℚ), ∀ nc : ℕ, (∀ r ∈ M, 0 < r.sum) →
      (∀ j < nc, 0 < colTotal M j) →
      ∀ r ∈ calculate_expected_values M nc, ∀ e ∈ r, 0 < e) := by
  constructor
  · intro row hrow c hc
    obtain ⟨ro, re, _, hre, rfl⟩ := mem_zipWith hrow
    obtain ⟨o, e, _, he, rfl⟩ := mem_zipWith hc
    rw [if_neg (not_le.mpr (hE re hre e he))]
    exact Option.some_ne_none _
  · intro M nc hrow hcol r hr e he
    rw [calculate_expected_values] at hr
    obtain ⟨row, hrowM, rfl⟩ := List.mem_map.mp hr
    obtain ⟨j, hj, rfl⟩ := List.mem_map.mp he
    rw [List.mem_range] at hj
    have hg : 0 < grandTotal M := by
      rw [grandTotal]
      refine List.sum_pos _ (fun x hx => ?_) (by
        intro hnil
        rw [List.map_eq_nil_iff] at hnil
        rw [hnil] at hrowM
        exact absurd hrowM (List.not_mem_nil _))
      obtain ⟨rr, hrr, rfl⟩ := List.mem_map.mp hx
      exact hrow rr hrr
    exact div_pos (mul_pos (hrow row hrowM) (hcol j hj)) hg

/-- C3 counterexample: on observed `[[1]]` and expected `[[0]]` the residual
cell is a non-finite float (`none`), not the claimed 0.0. -/
theorem C3_counterexample :
    calculate_residuals (fun q => q) [[1]] [[0]] = [[none]] := by
  norm_num [calculate_residuals]

/-- C3 witness: on a strictly positive expected matrix the residual cell is
finite. -/
theorem C3_witness :
    ((calculate_residuals (fun q => q) [[4]] [[1]]).getD 0 []).getD 0 none ≠ none := by
  have heval : calculate_residuals (fun q => q) [[4]] [[1]] = [[some 3]] := by
    norm_num [calculate_residuals]
  have h := (C3_residual_totality (fun q => q) [[4]] [[1]] (by norm_num)).1
    [some 3] (by rw [heval]; exact List.mem_singleton_self _)
    (some 3) (List.mem_singleton_self _)
  rw [heval]
  exact h

/-- C4 (amended): `create_crosstab` rejects the request exactly when a variable
name is absent from the columns or a named column is entirely missing; an
absent name is reported with a message naming that variable, but the
all-missing case raises the fixed message "Variable contains all null values",
which does not name the offending variable. -/
theorem C4_validation (V : Type) (d : DataSet V) (rowVar colVar : String) :
    ((∃ e, createCrosstabValidate d rowVar colVar = .error e) ↔
      (rowVar ∉ d.columns ∨ colVar ∉ d.columns ∨
        allMissing (d.col rowVar) = true ∨ allMissing (d.col colVar) = true)) ∧
    (rowVar ∉ d.columns →
      createCrosstabValidate d rowVar colVar =
        .error ("Row variable \x27" ++ rowVar ++ "\x27 not found in data")) ∧
    (rowVar ∈ d.columns → colVar ∉ d.columns →
      createCrosstabValidate d rowVar colVar =
        .error ("Column variable \x27" ++ colVar ++ "\x27 not found in data")) ∧
    (rowVar ∈ d.columns → colVar ∈ d.columns →
      (allMissing (d.col rowVar) = true ∨ allMissing (d.col colVar) = true) →
      createCrosstabValidate d rowVar colVar =
        .error "Variable contains all null values") := by
  have e1 : rowVar ∉ d.columns →
      createCrosstabValidate d rowVar colVar =
        .error ("Row variable \x27" ++ rowVar ++ "\x27 not found in data") := by
    intro h
    rw [createCrosstabValidate, if_pos h]
  have e2 : rowVar ∈ d.columns → colVar ∉ d.columns →
      createCrosstabValidate d rowVar colVar =
        .error ("Column variable \x27" ++ colVar ++ "\x27 not found in data") := by
    intro h1 h2
    rw [createCrosstabValidate, if_neg (by simpa using h1), if_pos h2]
  have e3 : rowVar ∈ d.columns → colVar ∈ d.columns →
      (allMissing (d.col rowVar) = true ∨ allMissing (d.col colVar) = true) →
      createCrosstabValidate d rowVar colVar =
        .error "Variable contains all null values" := by
    intro h1 h2 h3
    rw [createCrosstabValidate, if_neg (by simpa using h1), if_neg (by simpa using h2),
      if_pos (by rcases h3 with h | h <;> simp [h])]
  have hok : rowVar ∈ d.columns → colVar ∈ d.columns →
      allMissing (d.col rowVar) = false → allMissing (d.col colVar) = false →
      createCrosstabValidate d rowVar colVar = .ok () := by
    intro h1 h2 h3 h4
    rw [createCrosstabValidate, if_neg (by simpa using h1), if_neg (by simpa using h2),
      if_neg (by simp [h3, h4])]
  refine ⟨⟨?_, ?_⟩, e1, e2, e3⟩
  · rintro ⟨e, he⟩
    by_contra hcon
    push_neg at hcon
    obtain ⟨hr, hc, hmr, hmc⟩ := hcon
    rw [hok hr hc (by simpa using hmr) (by simpa using hmc)] at he
    exact Except.noConfusion he
  · intro h
    by_cases h1 : rowVar ∈ d.columns
    · by_cases h2 : colVar ∈ d.columns
      · rcases h with hr | hc | hm | hm
        · exact absurd h1 hr
        · exact absurd h2 hc
        · exact ⟨_, e3 h1 h2 (Or.inl hm)⟩
        · exact ⟨_, e3 h1 h2 (Or.inr hm)⟩
      · exact ⟨_, e2 h1 h2⟩
    · exact ⟨_, e1 h1⟩

/-- C4 counterexample: column "x1" exists but is entirely missing; the raised
message is the fixed string, which does not contain the variable name "x1". -/
theorem C4_counterexample :
    createCrosstabValidate
        (DataSet.mk [("x1", [none, none]), ("y1", [some (1:ℚ)])]) "x1" "y1"
      = .error "Variable contains all null values" ∧
    ¬ List.IsInfix "x1".data "Variable contains all null values".data := by
  constructor
  · rfl
  · decide

/-- C4 witness: an absent row variable is rejected with a message naming it. -/
theorem C4_witness :
    createCrosstabValidate (DataSet.mk [("y1", [some (1:ℚ)])]) "zz" "y1"
      = .error ("Row variable \x27" ++ "zz" ++ "\x27 not found in data") :=
  (C4_validation ℚ (DataSet.mk [("y1", [some (1:ℚ)])]) "zz" "y1").2.1 (by decide)

/-- C5: the Fisher exact operation succeeds — producing the odds ratio as the
statistic and the exact p-value, with no degrees of freedom and no effect
size — exactly when the observed sub-table is 2×2, and fails with the
shape ValueError for every other shape, for every Fisher kernel. -/
theorem C5_fisher_shape (kernel : List (List ℚ) → ℚ × ℚ) (T : List (List ℚ)) :
    ((T.length = 2 ∧ ∀ r ∈ T, r.length = 2) →
      performFisher kernel T = .ok
        { test_type := .FISHER_EXACT, statistic := (kernel T).1,
          p_value := (kernel T).2, degrees_of_freedom := none,
          effect_size := none }) ∧
    (¬ (T.length = 2 ∧ ∀ r ∈ T, r.length = 2) →
      performFisher kernel T = .error "The input table must be of shape (2, 2).") := by
  constructor
  · intro h
    rw [performFisher, fisher_exact, if_pos h]
    rfl
  · intro h
    rw [performFisher, fisher_exact, if_neg h]
    rfl

/-- C5 witness: a 2×2 table succeeds with the packaged kernel outputs. -/
theorem C5_witness :
    performFisher (fun _ => (1, 1)) [[1, 2], [3, 4]] = .ok
      { test_type := .FISHER_EXACT, statistic := 1, p_value := 1,
        degrees_of_freedom := none, effect_size := none } :=
  (C5_fisher_shape (fun _ => (1, 1)) [[1, 2], [3, 4]]).1 ⟨rfl, by simp⟩

lemma mem_uniqueAux {V : Type} [DecidableEq V] (x : V) :
    ∀ (l seen : List V), x ∈ uniqueAux seen l ↔ (x ∈ l ∧ x ∉ seen) := by
  intro l
  induction l with
  | nil => intro seen; simp [uniqueAux]
  | cons a l ih =>
    intro seen
    by_cases ha : a ∈ seen
    · rw [uniqueAux, if_pos ha, ih]
      constructor
      · exact fun ⟨h1, h2⟩ => ⟨List.mem_cons_of_mem _ h1, h2⟩
      · rintro ⟨h1, h2⟩
        rcases List.mem_cons.mp h1 with rfl | h1
        · exact absurd ha h2
        · exact ⟨h1, h2⟩
    · rw [uniqueAux, if_neg ha, List.mem_cons, ih]
      constructor
      · rintro (rfl | ⟨h1, h2⟩)
        · exact ⟨List.mem_cons_self _ _, ha⟩
        · exact ⟨List.mem_cons_of_mem _ h1,
            fun hx => h2 (List.mem_cons_of_mem _ hx)⟩
      · rintro ⟨h1, h2⟩
        rcases List.mem_cons.mp h1 with rfl | h1
        · exact Or.inl rfl
        · by_cases hxa : x = a
          · exact Or.inl hxa
          · exact Or.inr ⟨h1, fun hx => by
              rcases List.mem_cons.mp hx with h | h
              · exact hxa h
              · exact h2 h⟩

lemma nodup_uniqueAux {V : Type} [DecidableEq V] :
    ∀ (l seen : List V), (uniqueAux seen l).Nodup := by
  intro l
  induction l with
  | nil => intro seen; simp [uniqueAux]
  | cons a l ih =>
    intro seen
    by_cases ha : a ∈ seen
    · rw [uniqueAux, if_pos ha]
      exact ih seen
    · rw [uniqueAux, if_neg ha]
      refine List.Nodup.cons (fun hmem => ?_) (ih (a :: seen))
      exact ((mem_uniqueAux a l (a :: seen)).mp hmem).2 (List.mem_cons_self _ _)

/-- C6: `uniqueList` really enumerates the distinct values of the row variable
(no duplicates, same membership); the t-test branch fails with the group-count
ValueError whenever those distinct values number anything other than two, and
on success returns the effect size
`(mean₁ - mean₂) / sqrt((var₁ + var₂) / 2)` over the column-variable values of
the two groups, for every t-test kernel and square-root kernel. -/
theorem C6_t_test {V : Type} [DecidableEq V] [Inhabited V]
    (tKernel : List ℚ → List ℚ → ℚ × ℚ) (sqrtK : ℚ → ℚ)
    (v1 : List V) (v2 : List ℚ) :
    ((uniqueList v1).Nodup ∧ ∀ x, x ∈ uniqueList v1 ↔ x ∈ v1) ∧
    ((uniqueList v1).length ≠ 2 →
      ttestBranch tKernel sqrtK v1 v2 = .error "T-test requires exactly 2 groups") ∧
    ((uniqueList v1).length = 2 →
      ttestBranch tKernel sqrtK v1 v2 = .ok
        { test_type := .T_TEST,
          statistic := (tKernel (groupVals v1 v2 ((uniqueList v1).getD 0 default))
            (groupVals v1 v2 ((uniqueList v1).getD 1 default))).1,
          p_value := (tKernel (groupVals v1 v2 ((uniqueList v1).getD 0 default))
            (groupVals v1 v2 ((uniqueList v1).getD 1 default))).2,
          degrees_of_freedom := none,
          effect_size := some
            ((mean (groupVals v1 v2 ((uniqueList v1).getD 0 default)) -
              mean (groupVals v1 v2 ((uniqueList v1).getD 1 default))) /
             sqrtK ((sampleVar (groupVals v1 v2 ((uniqueList v1).getD 0 default)) +
               sampleVar (groupVals v1 v2 ((uniqueList v1).getD 1 default))) / 2)) }) := by
  refine ⟨⟨nodup_uniqueAux v1 [], fun x => ?_⟩, fun h => ?_, fun h => ?_⟩
  · rw [uniqueList, mem_uniqueAux]
    simp
  · rw [ttestBranch, if_pos h]
  · rw [ttestBranch, if_neg (by simp [h])]

/-- C6 witness: two groups of two values each; with `sqrtK` evaluating the
pooled variance 125 to 5, the effect size is (15 - 40) / 5 = -5. -/
theorem C6_witness :
    ttestBranch (fun _ _ => ((0:ℚ), (1:ℚ))) (fun _ => (5:ℚ))
        ([0, 0, 1, 1] : List ℕ) [10, 20, 30, 50]
      = .ok { test_type := .T_TEST, statistic := 0, p_value := 1,
              degrees_of_freedom := none, effect_size := some (-5) } := by
  have h := (C6_t_test (fun _ _ => ((0:ℚ), (1:ℚ))) (fun _ => (5:ℚ))
    ([0, 0, 1, 1] : List ℕ) [10, 20, 30, 50]).2.2 (by decide)
  rw [h]
  norm_num [uniqueList, uniqueAux, groupVals, mean, sampleVar]

lemma bannerLoop_all_ok {E R : Type} (key : String → String → String)
    (f : String → String → R) :
    ∀ (ps : List (String × String)) (acc : List (String × R)),
      bannerLoop key (fun rv cv => (Except.ok (f rv cv) : Except E R)) ps acc
        = .ok (acc ++ ps.map (fun p => (key p.1 p.2, f p.1 p.2))) := by
  intro ps
  induction ps with
  | nil => intro acc; simp [bannerLoop]
  | cons p rest ih =>
    intro acc
    rw [bannerLoop]
    simp only []
    rw [ih]
    simp

/-- C7 (amended): when every per-pair crosstab succeeds,
`CrosstabEngine.create_banner_table` stores one result per ordered pair of the
cross product, in row-major order, under the key `"<row> x <col>"`; the other
banner-generating entry point, `BannerTableGenerator.generate_banner`, stores
the same row-major results but under the key `"<row>_by_<col>"`, not
`"<row> x <col>"`. -/
theorem C7_banner_keys {E R : Type} (f : String → String → R)
    (rowVars colVars : List String) :
    create_banner_table (fun rv cv => (Except.ok (f rv cv) : Except E R))
        rowVars colVars
      = .ok ((rowMajorPairs rowVars colVars).map
          (fun p => (p.1 ++ " x " ++ p.2, f p.1 p.2))) ∧
    generate_banner (fun rv cv => (Except.ok (f rv cv) : Except E R))
        rowVars colVars
      = .ok ((rowMajorPairs rowVars colVars).map
          (fun p => (p.1 ++ "_by_" ++ p.2, f p.1 p.2))) := by
  constructor
  · rw [create_banner_table, bannerLoop_all_ok]
    simp
  · rw [generate_banner, bannerLoop_all_ok]
    simp

/-- C7 counterexample: on row variables `["a"]` and column variables `["b"]`,
`generate_banner` keys its single entry `"a_by_b"`, which is not the claimed
`"a x b"`. -/
theorem C7_counterexample :
    generate_banner (fun _ _ => (Except.ok 0 : Except Unit ℕ)) ["a"] ["b"]
      = .ok [("a_by_b", 0)] ∧
    "a_by_b" ≠ "a x b" := by
  constructor
  · rfl
  · decide

lemma bannerLoop_first_error {E R : Type} (key : String → String → String)
    (ct : String → String → Except E R) (p : String × String) (e : E)
    (hfail : ct p.1 p.2 = .error e) :
    ∀ (pre post : List (String × String)) (acc : List (String × R)),
      (∀ q ∈ pre, ∃ r, ct q.1 q.2 = .ok r) →
      bannerLoop key ct (pre ++ p :: post) acc = .error e := by
  intro pre
  induction pre with
  | nil =>
    intro post acc _
    rw [List.nil_append, bannerLoop, hfail]
  | cons q pre ih =>
    intro post acc hpre
    obtain ⟨r, hr⟩ := hpre q (List.mem_cons_self _ _)
    rw [List.cons_append, bannerLoop, hr]
    exact ih post _ (fun q' hq' => hpre q' (List.mem_cons_of_mem _ hq'))

/-- C10: if the row-major pair list splits as `pre ++ p :: post` with every
pair of `pre` succeeding and `p` failing, then `create_banner_table` raises
that first failure's error as its entire outcome: the results already computed
for `pre` are discarded and no partial banner or per-pair error collection is
produced. -/
theorem C10_banner_abort {E R : Type} (ct : String → String → Except E R)
    (rowVars colVars : List String) (pre post : List (String × String))
    (p : String × String) (e : E)
    (hsplit : rowMajorPairs rowVars colVars = pre ++ p :: post)
    (hpre : ∀ q ∈ pre, ∃ r, ct q.1 q.2 = .ok r)
    (hfail : ct p.1 p.2 = .error e) :
    create_banner_table ct rowVars colVars = .error e := by
  rw [create_banner_table, hsplit]
  exact bannerLoop_first_error _ ct p e hfail pre post [] hpre

/-- C10 witness: with the pair ("a","c") failing after ("a","b") succeeded,
the banner call returns exactly that error. -/
theorem C10_witness :
    create_banner_table
        (fun _ cv => if cv = "c" then (Except.error 7 : Except ℕ ℕ) else .ok 0)
        ["a"] ["b", "c"]
      = .error 7 := by
  refine C10_banner_abort _ ["a"] ["b", "c"] [("a", "b")] [] ("a", "c") 7 rfl ?_ rfl
  intro q hq
  rw [List.mem_singleton] at hq
  subst hq
  exact ⟨0, rfl⟩

lemma colTotal_cons (r : List ℚ) (M : List (List ℚ)) (j : ℕ) :
    colTotal (r :: M) j = r.getD j 0 + colTotal M j := by
  simp [colTotal]

lemma grandTotal_cons (r : List ℚ) (M : List (List ℚ)) :
    grandTotal (r :: M) = r.sum + grandTotal M := by
  simp [grandTotal]

lemma sum_range_getD (r : List ℚ) :
    ((List.range r.length).map (fun j => r.getD j 0)).sum = r.sum := by
  induction r with
  | nil => simp
  | cons a t ih =>
    rw [List.length_cons, List.range_succ_eq_map, List.map_cons, List.map_map]
    simp only [Function.comp_def, List.getD_cons_zero, List.getD_cons_succ, List.sum_cons]
    rw [ih]

lemma sum_map_mul_div {α : Type} (l : List α) (g : α → ℚ) (s T : ℚ) :
    (l.map (fun x => s * g x / T)).sum = s * (l.map g).sum / T := by
  induction l with
  | nil => simp
  | cons a l ih =>
    simp only [List.map_cons, List.sum_cons, ih]
    ring

lemma sum_allRow : ∀ (M : List (List ℚ)) {nc : ℕ}, (∀ r ∈ M, r.length = nc) →
    (allRow M nc).sum = grandTotal M := by
  intro M
  induction M with
  | nil =>
    intro nc _
    simp [allRow, grandTotal, colTotal]
  | cons r M ih =>
    intro nc hrect
    have hr : r.length = nc := hrect r (List.mem_cons_self _ _)
    rw [grandTotal_cons, allRow]
    simp only [colTotal_cons]
    rw [sum_map_add]
    congr 1
    · rw [← hr]
      exact sum_range_getD r
    · exact ih (fun rr hrr => hrect rr (List.mem_cons_of_mem _ hrr))

/-- C8: for every rectangular body with non-zero grand total, the
outer-product expected-frequency matrix — cell (i,j) =
row_total(i) × col_total(j) / grand_total, as computed by both
`_calculate_expected_values` implementations and by scipy — has the same
grand total as the observed body. -/
theorem C8_expected_grand_total (M : List (List ℚ)) (nc : ℕ)
    (hrect : ∀ r ∈ M, r.length = nc) (h : grandTotal M ≠ 0) :
    ((calculate_expected_values M nc).map List.sum).sum = grandTotal M := by
  unfold calculate_expected_values
  rw [List.map_map]
  simp only [Function.comp_def, sum_map_mul_div]
  have hA : ((List.range nc).map (fun j => colTotal M j)).sum = grandTotal M :=
    sum_allRow M hrect
  simp only [hA]
  have hcancel : ∀ s : ℚ, s * grandTotal M / grandTotal M = s := by
    intro s
    rw [mul_div_assoc, div_self h, mul_one]
  simp only [hcancel]
  rfl

/-- C8 witness: on the spec's seed body the expected matrix totals 4, the
observed grand total. -/
theorem C8_witness :
    ((calculate_expected_values [[1,0,1],[1,1,0]] 3).map List.sum).sum
      = grandTotal [[1,0,1],[1,1,0]] :=
  C8_expected_grand_total [[1,0,1],[1,1,0]] 3 (by simp)
    (by norm_num [grandTotal])

lemma mem_uniqueList {V : Type} [DecidableEq V] (x : V) (l : List V) :
    x ∈ uniqueList l ↔ x ∈ l := by
  rw [uniqueList, mem_uniqueAux]
  simp

lemma getD_map_getElem {α β : Type} {l : List α} (f : α → β) (d : β) {i : ℕ}
    (hi : i < l.length) :
    (l.map f).getD i d = f l[i] := by
  rw [List.getD_eq_getElem _ _ (by simpa using hi), List.getElem_map]

lemma sum_indicator_not_mem {β : Type} [DecidableEq β] (cats : List β) (b0 : β)
    (h : b0 ∉ cats) :
    (cats.map (fun b => if b0 = b then (1:ℕ) else 0)).sum = 0 := by
  induction cats with
  | nil => rfl
  | cons c cs ih =>
    simp only [List.mem_cons, not_or] at h
    rw [List.map_cons, List.sum_cons, if_neg h.1, ih h.2]

lemma sum_indicator_nodup {β : Type} [DecidableEq β] (cats : List β) (b0 : β)
    (hnd : cats.Nodup) (hb : b0 ∈ cats) :
    (cats.map (fun b => if b0 = b then (1:ℕ) else 0)).sum = 1 := by
  induction cats with
  | nil => cases hb
  | cons c cs ih =>
    rw [List.map_cons, List.sum_cons]
    rcases List.mem_cons.mp hb with rfl | hb'
    · rw [if_pos rfl, sum_indicator_not_mem cs b0 (List.nodup_cons.mp hnd).1]
    · have hne : b0 ≠ c := fun h => (List.nodup_cons.mp hnd).1 (h ▸ hb')
      rw [if_neg hne, ih (List.nodup_cons.mp hnd).2 hb', zero_add]

lemma sum_countP_partition {α β : Type} [DecidableEq β]
    (key : α → β) (P : α → Bool) (cats : List β) (hnd : cats.Nodup) :
    ∀ ps : List α, (∀ p ∈ ps, P p = true → key p ∈ cats) →
      (cats.map (fun b => ps.countP (fun p => key p == b && P p))).sum
        = ps.countP P := by
  intro ps
  induction ps with
  | nil => intro _; simp
  | cons p ps ih =>
    intro hc
    have hps : ∀ q ∈ ps, P q = true → key q ∈ cats :=
      fun q hq hPq => hc q (List.mem_cons_of_mem _ hq) hPq
    simp only [List.countP_cons]
    rw [sum_map_add, ih hps]
    by_cases hP : P p = true
    · have hind : ∀ b : β, (if (key p == b && P p) = true then (1:ℕ) else 0)
          = (if key p = b then (1:ℕ) else 0) := by
        intro b
        simp [hP, beq_iff_eq]
      simp only [hind]
      rw [sum_indicator_nodup cats (key p) hnd (hc p (List.mem_cons_self _ _) hP),
        if_pos hP]
    · have hind : ∀ b : β, (if (key p == b && P p) = true then (1:ℕ) else 0) = 0 := by
        intro b
        simp [hP]
      simp only [hind]
      rw [if_neg hP]
      simp

lemma countP_and_comm {α : Type} (ps : List α) (f g : α → Bool) :
    ps.countP (fun p => f p && g p) = ps.countP (fun p => g p && f p) := by
  induction ps with
  | nil => rfl
  | cons p ps ih =>
    simp only [List.countP_cons, ih, Bool.and_comm]

/-- C9: in the margin-augmented contingency table built by `create_crosstab`,
each cell of the "All" row equals the sum of the non-margin cells of its
column, each cell of the "All" column equals the sum of the non-margin cells
of its row, and the "All"/"All" grand total equals the sum of all non-margin
cells. -/
theorem C9_margin_invariant {V W : Type} [DecidableEq V] [DecidableEq W]
    (pairs : List (Option V × Option W)) :
    (∀ j, j < (crosstabMargins pairs).colCats.length →
      (crosstabMargins pairs).marginRow.getD j 0
        = ((crosstabMargins pairs).body.map (fun r => r.getD j 0)).sum) ∧
    (∀ i, i < (crosstabMargins pairs).rowCats.length →
      (crosstabMargins pairs).marginCol.getD i 0
        = ((crosstabMargins pairs).body.getD i []).sum) ∧
    (crosstabMargins pairs).grand
      = ((crosstabMargins pairs).body.map List.sum).sum := by
  have hrnd : (uniqueList ((validPairs pairs).map Prod.fst)).Nodup := nodup_uniqueAux _ _
  have hcnd : (uniqueList ((validPairs pairs).map Prod.snd)).Nodup := nodup_uniqueAux _ _
  refine ⟨?_, ?_, ?_⟩
  · intro j hj
    simp only [crosstabMargins] at hj ⊢
    rw [getD_map_getElem _ _ hj, List.map_map]
    have hbody : (uniqueList ((validPairs pairs).map Prod.fst)).map
          ((fun r : List ℕ => r.getD j 0) ∘ (fun a =>
            (uniqueList ((validPairs pairs).map Prod.snd)).map
              (fun b => countPair (validPairs pairs) a b)))
        = (uniqueList ((validPairs pairs).map Prod.fst)).map
            (fun a => countPair (validPairs pairs) a
              ((uniqueList ((validPairs pairs).map Prod.snd))[j])) :=
      List.map_congr_left (fun a _ => getD_map_getElem _ _ hj)
    rw [hbody]
    exact (sum_countP_partition Prod.fst
      (fun p => p.2 == (uniqueList ((validPairs pairs).map Prod.snd))[j])
      (uniqueList ((validPairs pairs).map Prod.fst)) hrnd (validPairs pairs)
      (fun p hp _ => (mem_uniqueList _ _).mpr (List.mem_map_of_mem Prod.fst hp))).symm
  · intro i hi
    simp only [crosstabMargins] at hi ⊢
    rw [getD_map_getElem _ _ hi, getD_map_getElem _ _ hi]
    have hcomm : (uniqueList ((validPairs pairs).map Prod.snd)).map
          (fun b => countPair (validPairs pairs)
            ((uniqueList ((validPairs pairs).map Prod.fst))[i]) b)
        = (uniqueList ((validPairs pairs).map Prod.snd)).map
            (fun b => (validPairs pairs).countP (fun p => p.2 == b &&
              p.1 == (uniqueList ((validPairs pairs).map Prod.fst))[i])) :=
      List.map_congr_left (fun b _ => countP_and_comm (validPairs pairs) _ _)
    rw [hcomm]
    exact (sum_countP_partition Prod.snd
      (fun p => p.1 == (uniqueList ((validPairs pairs).map Prod.fst))[i])
      (uniqueList ((validPairs pairs).map Prod.snd)) hcnd (validPairs pairs)
      (fun p hp _ => (mem_uniqueList _ _).mpr (List.mem_map_of_mem Prod.snd hp))).symm
  · simp only [crosstabMargins]
    rw [List.map_map]
    simp only [Function.comp_def]
    have hinner : (uniqueList ((validPairs pairs).map Prod.fst)).map
          (fun a => ((uniqueList ((validPairs pairs).map Prod.snd)).map
            (fun b => countPair (validPairs pairs) a b)).sum)
        = (uniqueList ((validPairs pairs).map Prod.fst)).map
            (fun a => (validPairs pairs).countP (fun p => p.1 == a)) := by
      refine List.map_congr_left (fun a _ => ?_)
      have h1 : (uniqueList ((validPairs pairs).map Prod.snd)).map
            (fun b => countPair (validPairs pairs) a b)
          = (uniqueList ((validPairs pairs).map Prod.snd)).map
              (fun b => (validPairs pairs).countP (fun p => p.2 == b && p.1 == a)) :=
        List.map_congr_left (fun b _ => countP_and_comm (validPairs pairs) _ _)
      rw [h1]
      exact sum_countP_partition Prod.snd (fun p => p.1 == a)
        (uniqueList ((validPairs pairs).map Prod.snd)) hcnd (validPairs pairs)
        (fun p hp _ => (mem_uniqueList _ _).mpr (List.mem_map_of_mem Prod.snd hp))
    rw [hinner]
    have htrue : (uniqueList ((validPairs pairs).map Prod.fst)).map
          (fun a => (validPairs pairs).countP (fun p => p.1 == a))
        = (uniqueList ((validPairs pairs).map Prod.fst)).map
            (fun a => (validPairs pairs).countP (fun p => p.1 == a && true)) := by
      refine List.map_congr_left (fun a _ => ?_)
      congr 1
      funext p
      rw [Bool.and_true]
    rw [htrue]
    rw [sum_countP_partition Prod.fst (fun _ => true)
      (uniqueList ((validPairs pairs).map Prod.fst)) hrnd (validPairs pairs)
      (fun p hp _ => (mem_uniqueList _ _).mpr (List.mem_map_of_mem Prod.fst hp))]
    simp [List.countP_true]

/-- C9 witness: a three-record table; the first "All"-row cell (2) equals the
first column's body sum. -/
theorem C9_witness :
    (crosstabMargins [(some 0, some 0), (some 0, some 1),
        (some 1, some 0)]).marginRow.getD 0 0
      = ((crosstabMargins [(some 0, some 0), (some 0, some 1),
          (some 1, some 0)]).body.map (fun r => r.getD 0 0)).sum :=
  (C9_margin_invariant [(some 0, some 0), (some 0, some 1),
    (some 1, some 0)]).1 0 (by decide)
